import Mathlib

/-!
A shallow embedding of the fixed-width COBOL batch processor of
src/custom_logic.py, together with proofs of the specification claims.

Lines of text are modelled as lists of characters; records are ordered
association lists from field names to typed values (mirroring Python dict
insertion-order semantics); per-line failures are modelled with Except.
The function `parse_cobol_line` is referenced by the source but defined
elsewhere (imported from the jsoncons package); the batch-processor
theorems are therefore stated over an arbitrary parse function, and a
concrete line decoder modelled from the spec is used for witnesses.
-/

namespace CustomLogic

/-- The characters Python str.strip and str.rstrip remove when called with
no argument (the whitespace class for ASCII text). -/
def pyIsSpace (c : Char) : Bool :=
  c == ' ' || c == '\t' || c == '\n' || c == '\r' || c == '\x0b' || c == '\x0c'

/-- Python line.rstrip() with no argument: drop all trailing whitespace. -/
def pyRstrip (l : List Char) : List Char :=
  (l.reverse.dropWhile pyIsSpace).reverse

/-- Python line.strip() with no argument: drop leading and trailing whitespace. -/
def pyStrip (l : List Char) : List Char :=
  pyRstrip (l.dropWhile pyIsSpace)

/-- Python `not line.strip()`: the line is empty or whitespace-only. -/
def isBlank (l : List Char) : Bool := l.all pyIsSpace

/-- The decimal digit character for a digit value below ten. -/
def digitCh (d : Nat) : Char := Char.ofNat (48 + d)

/-- The digit value of a decimal digit character. -/
def digitVal (c : Char) : Nat := c.toNat - 48

/-- Whether a character is a decimal digit. -/
def isDigitCh (c : Char) : Bool := decide (48 ≤ c.toNat) && decide (c.toNat ≤ 57)

/-- Fueled digit rendering, most significant digit first (empty for zero). -/
def natToCharsAux : Nat → Nat → List Char
  | 0, _ => []
  | fuel + 1, n =>
      if n = 0 then [] else natToCharsAux fuel (n / 10) ++ [digitCh (n % 10)]

/-- Decimal digit string of a natural number, most significant digit first. -/
def natToChars (n : Nat) : List Char :=
  if n = 0 then [digitCh 0] else natToCharsAux n n

/-- Python str() of an integer. -/
def intToChars (n : Int) : List Char :=
  if n < 0 then '-' :: natToChars n.natAbs else natToChars n.natAbs

/-- An exact-precision decimal value: an integer coefficient together with
the number of digits after the implied decimal point (decimal.Decimal with
a non-positive exponent, the only shape the line decoder produces). -/
structure Dec where
  num : Int
  scale : Nat
deriving DecidableEq

/-- Modelled from the spec: the exact decimal text representation of an
unsigned decimal value (spec 4.5 and 8: the literal digit string with the
decimal point inserted `scale` digits from the right, zero-padded on the
left when there are no integer digits). Python's str() of such a Decimal
is produced by the standard library, not by the repository source. -/
def decBodyChars (a : Nat) (scale : Nat) : List Char :=
  let ds := natToChars a
  if scale = 0 then ds
  else if scale < ds.length then
    ds.take (ds.length - scale) ++ '.' :: ds.drop (ds.length - scale)
  else
    '0' :: '.' :: (List.replicate (scale - ds.length) '0' ++ ds)

/-- The exact decimal text representation of a decimal value, as produced
by Python str() on decimal.Decimal. -/
def decToString (d : Dec) : List Char :=
  (if d.num < 0 then ['-'] else []) ++ decBodyChars d.num.natAbs d.scale

/-- The comparison `a < b` on exact decimals (Python decimal.Decimal order). -/
def decLt (a b : Dec) : Bool :=
  decide (a.num * (10 : Int) ^ b.scale < b.num * (10 : Int) ^ a.scale)

/-- The hard-coded warning threshold decimal.Decimal of negative five
hundred (source line 73). -/
def warnThreshold : Dec := ⟨-50000, 2⟩

/-- A typed field value of a decoded record. `vnone` models Python None. -/
inductive Value where
  | vstr (s : List Char)
  | vint (n : Int)
  | vdec (d : Dec)
  | vbool (b : Bool)
  | vnone
deriving DecidableEq

/-- Python str() of a value, as used when upper-casing the name field. -/
def pyStr (v : Value) : List Char :=
  match v with
  | .vstr s => s
  | .vint n => intToChars n
  | .vdec d => decToString d
  | .vbool true => ("True").data
  | .vbool false => ("False").data
  | .vnone => ("None").data

/-- Python str.upper() on ASCII text. -/
def upperChars (s : List Char) : List Char := s.map Char.toUpper

/-- The field-name keys the processing rules use (source lines 60 to 74). -/
def kStatus : String := "status_code"

def kName : String := "customer_name"

def kActive : String := "is_active"

def kBalance : String := "account_balance"

/-- A decoded record: an insertion-ordered mapping from field names to
typed values (a Python dict). -/
abbrev Record := List (String × Value)

instance instDecEqExcept {α β : Type} [DecidableEq α] [DecidableEq β] :
    DecidableEq (Except α β)
  | .ok a, .ok b =>
      match decEq a b with
      | isTrue h => isTrue (by rw [h])
      | isFalse h => isFalse (fun hh => h (by injection hh))
  | .ok _, .error _ => isFalse (fun hh => Except.noConfusion hh)
  | .error _, .ok _ => isFalse (fun hh => Except.noConfusion hh)
  | .error a, .error b =>
      match decEq a b with
      | isTrue h => isTrue (by rw [h])
      | isFalse h => isFalse (fun hh => h (by injection hh))

/-- Python dict .get: the value stored under a key, if present. -/
def rget : Record → String → Option Value
  | [], _ => none
  | (k0, v0) :: rest, k => if k0 = k then some v0 else rget rest k

/-- Python dict item assignment: update in place when the key exists
(preserving its position), append otherwise. -/
def rset : Record → String → Value → Record
  | [], k, v => [(k, v)]
  | (k0, v0) :: rest, k, v =>
      if k0 = k then (k0, v) :: rest else (k0, v0) :: rset rest k v

/-- The status whitelist test of source line 61:
`parsed_record.get("status_code") in ['A', 'N', 'R']`. Python equality of
a non-string (or None) with a string is always false. -/
def statusOk (v : Option Value) : Bool :=
  match v with
  | some (.vstr s) => decide (s = ['A']) || decide (s = ['N']) || decide (s = ['R'])
  | _ => false

/-- The active-flag test of source line 69:
`parsed_record.get("status_code") == 'A'`. -/
def isActiveVal (v : Option Value) : Bool :=
  match v with
  | some (.vstr s) => decide (s = ['A'])
  | _ => false

/-- Python str() of an optional value (None renders as None). -/
def optValStr : Option Value → List Char
  | none => ("None").data
  | some v => pyStr v

/-- The message of the ValueError raised at source line 62. -/
def invalidStatusMsg (v : Option Value) : List Char :=
  ("Invalid status code ").data ++ optValStr v

/-- The message of the TypeError Python raises when a string balance is
compared against a Decimal at source line 73. -/
def typeErrorMsg : List Char :=
  ("unsupported comparison between str and Decimal").data

/-- A per-line recoverable failure, tagged by the Python exception class
that carries it. The first three are caught by the except clause at
source line 80; `unexpected` is caught by the clause at source line 89. -/
inductive PErr where
  | cobolParsingError (msg : List Char)
  | valueError (msg : List Char)
  | keyError (msg : List Char)
  | unexpected (msg : List Char)
deriving DecidableEq

/-- The uppercase transformation of source lines 65 and 66. -/
def upperName (r : Record) : Record :=
  match rget r kName with
  | some v => rset r kName (.vstr (upperChars (pyStr v)))
  | none => r

/-- The balance inspection of source lines 72 to 74: comparing a string
balance against a Decimal raises a TypeError (caught as an unexpected
error); for every other value the check only logs a warning and the
record passes through unchanged. -/
def balanceCheck (r : Record) : Except PErr Record :=
  match rget r kBalance with
  | some (.vstr _) => .error (.unexpected typeErrorMsg)
  | _ => .ok r

/-- The validation and transformation steps of source lines 59 to 74,
applied to a successfully decoded record in source order: status
whitelist, name upper-casing, derived is_active flag, balance warning. -/
def applyRules (r : Record) : Except PErr Record :=
  if statusOk (rget r kStatus) then
    balanceCheck
      (rset (upperName r) kActive (.vbool (isActiveVal (rget (upperName r) kStatus))))
  else
    .error (.valueError (invalidStatusMsg (rget r kStatus)))

/-- One error entry of the error report (source lines 84 to 88 and 93 to
97): the originating 1-based line number, the formatted message, and the
raw line with trailing whitespace removed. -/
structure Entry where
  lineNumber : Nat
  error : List Char
  rawLine : List Char
deriving DecidableEq

/-- The formatted error message of source lines 82 and 91. -/
def errText (n : Nat) (e : PErr) : List Char :=
  match e with
  | .cobolParsingError m =>
      ("Line ").data ++ natToChars n ++ (": Error processing record - ").data ++ m
  | .valueError m =>
      ("Line ").data ++ natToChars n ++ (": Error processing record - ").data ++ m
  | .keyError m =>
      ("Line ").data ++ natToChars n ++ (": Error processing record - ").data ++ m
  | .unexpected m =>
      ("Line ").data ++ natToChars n ++ (": Unexpected error - ").data ++ m

/-- The error entry appended for a failing line (source lines 84 to 88):
`raw_line` is `line.rstrip()`. -/
def mkEntry (n : Nat) (e : PErr) (line : List Char) : Entry :=
  ⟨n, errText n e, pyRstrip line⟩

/-- Processing of one non-blank line (source lines 54 to 78): decode,
then validate and transform. -/
def processLine (p : List Char → Nat → Except PErr Record) (line : List Char)
    (n : Nat) : Except PErr Record :=
  match p line n with
  | .error e => .error e
  | .ok r => applyRules r

/-- The per-line batch loop of source lines 49 to 97: a 1-based counter
is incremented for every line, blank lines are skipped, and every
non-blank line contributes either a record or an error entry. -/
def processLines (p : List Char → Nat → Except PErr Record) :
    List (List Char) → Nat → List Record × List Entry
  | [], _ => ([], [])
  | l :: rest, n =>
      if isBlank l then processLines p rest (n + 1)
      else
        match processLine p l (n + 1) with
        | .ok r =>
            let res := processLines p rest (n + 1)
            (r :: res.1, res.2)
        | .error e =>
            let res := processLines p rest (n + 1)
            (res.1, mkEntry (n + 1) e l :: res.2)

/-- A fatal failure of the data source (source lines 100 to 105). -/
inductive DataSourceErr where
  | fileNotFound
  | other (msg : List Char)
deriving DecidableEq

/-- An element of the returned error list: either a structured per-line
entry (source lines 84 to 97) or a bare string (fatal paths at source
lines 43, 102, 105 and the output-write failure at line 118). -/
inductive ErrOut where
  | entry (e : Entry)
  | plain (msg : List Char)
deriving DecidableEq

/-- Whether an error-list element has the structured three-field shape. -/
def isEntryShape : ErrOut → Bool
  | .entry _ => true
  | .plain _ => false

def layoutLoadErrorMsg : List Char := ("Layout Load Error").data

def dataFileNotFoundMsg : List Char := ("Data File Not Found").data

def fileProcessingErrorMsg : List Char := ("File Processing Error").data

def jsonOutputErrorMsg : List Char := ("JSON Output Error").data

/-- The flat, single-level field layout of spec section 3. -/
inductive FieldKind where
  | text
  | signedDecimal
  | unsignedInteger
  | code
deriving DecidableEq

structure FieldDef where
  name : String
  start : Nat
  length : Nat
  kind : FieldKind
  scale : Nat
deriving DecidableEq

abbrev Layout := List FieldDef

/-- The numeric value of a digit string, most significant digit first. -/
def charsToNat (cs : List Char) : Nat :=
  cs.foldl (fun a c => 10 * a + digitVal c) 0

/-- Parse a non-empty all-digit character list. -/
def parseDigits (cs : List Char) : Option Nat :=
  if cs ≠ [] ∧ cs.all isDigitCh = true then some (charsToNat cs) else none

/-- Parse an optionally signed digit string into an integer. -/
def parseIntChars (cs : List Char) : Option Int :=
  match cs with
  | '-' :: rest => (parseDigits rest).map (fun n => -(n : Int))
  | '+' :: rest => (parseDigits rest).map (fun n => (n : Int))
  | _ => (parseDigits cs).map (fun n => (n : Int))

/-- Modelled from the spec: field extraction and coercion of the Line
Decoder (spec section 4.2), which the source imports as part of
`parse_cobol_line` rather than defining under src: slice the half-open
range from start to start plus length, fail fast on short lines, trim
text and code fields, and read numerics as optional sign plus digits with
the implied decimal scale. -/
def decodeField (line : List Char) (f : FieldDef) : Except PErr Value :=
  if line.length < f.start + f.length then
    .error (.cobolParsingError (("TruncatedLine").data))
  else
    let raw := (line.drop f.start).take f.length
    match f.kind with
    | .text => .ok (.vstr (pyStrip raw))
    | .code => .ok (.vstr (pyStrip raw))
    | .unsignedInteger =>
        match parseIntChars raw with
        | some n => .ok (.vint n)
        | none => .error (.cobolParsingError (("InvalidNumeric").data))
    | .signedDecimal =>
        match parseIntChars raw with
        | some n => .ok (.vdec ⟨n, f.scale⟩)
        | none => .error (.cobolParsingError (("InvalidNumeric").data))

/-- Modelled from the spec: the Line Decoder `parse_cobol_line` (spec
section 4.2), referenced at source line 56 but imported from the jsoncons
package rather than defined under src: decode every schema field in
declared order, all-or-nothing per line. -/
def parse_cobol_line (layout : Layout) (line : List Char) (lineNumber : Nat) :
    Except PErr Record :=
  match layout with
  | [] => .ok []
  | f :: rest =>
      match decodeField line f with
      | .error e => .error e
      | .ok v =>
          match parse_cobol_line rest line lineNumber with
          | .error e => .error e
          | .ok r => .ok ((f.name, v) :: r)

/-- The whole run of `advanced_cobol_processor` (source lines 27 to 121).
Layout loading and the data source are external effects, modelled by an
Option and an Except argument; `outputJsonPath` tells whether an output
path was supplied and `writeOk` whether writing the JSON file succeeds
(source lines 110 to 118 append a bare string to the error list when it
does not). A fatal failure returns no records and a one-string error
list. -/
def advanced_cobol_processor (parse : Layout → List Char → Nat → Except PErr Record)
    (layout : Option Layout) (dataSource : Except DataSourceErr (List (List Char)))
    (outputJsonPath : Bool) (writeOk : Bool) :
    Option (List Record) × List ErrOut :=
  match layout with
  | none => (none, [ErrOut.plain layoutLoadErrorMsg])
  | some lay =>
      match dataSource with
      | .error .fileNotFound => (none, [ErrOut.plain dataFileNotFoundMsg])
      | .error (.other _) => (none, [ErrOut.plain fileProcessingErrorMsg])
      | .ok ls =>
          let res := processLines (parse lay) ls 0
          let errs := res.2.map ErrOut.entry
          (some res.1,
            if outputJsonPath && !writeOk then errs ++ [ErrOut.plain jsonOutputErrorMsg]
            else errs)

/-- A JSON document shape, the output representation of the serializer. -/
inductive Json where
  | jnull
  | jbool (b : Bool)
  | jint (n : Int)
  | jstr (s : List Char)
  | jarr (a : List Json)
  | jobj (o : List (String × Json))

/-- The DecimalEncoder.default hook of source lines 15 to 19: a Decimal
is rendered via str(); every other type falls through to the base
encoder (none here). -/
def DecimalEncoder.default (v : Value) : Option (List Char) :=
  match v with
  | .vdec d => some (decToString d)
  | _ => none

/-- json.dump with cls=DecimalEncoder on one field value (source line
113): native types encode natively, Decimals through the encoder hook. -/
def encodeValue (v : Value) : Json :=
  match DecimalEncoder.default v with
  | some s => .jstr s
  | none =>
      match v with
      | .vstr s => .jstr s
      | .vint n => .jint n
      | .vdec d => .jstr (decToString d)
      | .vbool b => .jbool b
      | .vnone => .jnull

/-- Serialization of one record to a JSON object, field order preserved. -/
def encodeRecord (r : Record) : Json :=
  .jobj (r.map (fun kv => (kv.1, encodeValue kv.2)))

/-- Serialization of the successful records to the output JSON array. -/
def serializeRecords (rs : List Record) : Json :=
  .jarr (rs.map encodeRecord)

/-- First component before any decimal point, then the fraction digits if
a point is present (splitting a decimal text at its first point). -/
def splitAtDot : List Char → List Char × Option (List Char)
  | [] => ([], none)
  | c :: rest =>
      if c = '.' then ([], some rest)
      else
        let r := splitAtDot rest
        (c :: r.1, r.2)

/-- The rational number denoted by an unsigned decimal text. -/
def parseUnsigned (s : List Char) : Option ℚ :=
  match splitAtDot s with
  | (ip, none) => (parseDigits ip).map (fun a => (a : ℚ))
  | (ip, some fp) =>
      match parseDigits ip, parseDigits fp with
      | some a, some b => some ((a : ℚ) + (b : ℚ) / (10 : ℚ) ^ fp.length)
      | _, _ => none

/-- The rational number denoted by a decimal text with an optional
leading minus sign. -/
def parseDecText (s : List Char) : Option ℚ :=
  if s.head? = some '-' then (parseUnsigned s.tail).map (fun q => -q)
  else parseUnsigned s

/-- The exact rational value of a decimal. -/
def decDenote (d : Dec) : ℚ := (d.num : ℚ) / (10 : ℚ) ^ d.scale

/-- The spec's words for claim C3: the original line text with only a
trailing newline stripped. -/
def stripTrailingNewline (l : List Char) : List Char :=
  if l.getLast? = some '\n' then l.dropLast else l

/-- A one-field layout used by concrete witnesses: a single status code
character at offset zero. -/
def wLayout : Layout := [⟨kStatus, 0, 1, .code, 0⟩]

/-- A concrete line whose status code is outside the allowed set and
which carries trailing spaces before its newline. -/
def wBadLine : List Char := ['X', ' ', ' ', '\n']

/-- A concrete line whose status code is the active code. -/
def wGoodLine : List Char := ['A', '\n']

/-- A concrete blank line. -/
def wBlankLine : List Char := [' ', ' ', '\n']

/-- The record decoded from `wBadLine` under `wLayout`. -/
def wBadRecord : Record := [(kStatus, Value.vstr ['X'])]

/-- The error entry the batch loop produces for `wBadLine`. -/
def wBadEntry : Entry :=
  mkEntry 1 (.valueError (invalidStatusMsg (some (.vstr ['X'])))) wBadLine

/-- A two-field layout: status code, then a signed decimal balance with
two implied fraction digits. -/
def wLayout2 : Layout :=
  [⟨kStatus, 0, 1, .code, 0⟩, ⟨kBalance, 1, 9, .signedDecimal, 2⟩]

/-- A line with active status and balance -600.00, below the warning
threshold. -/
def wBalLine : List Char := ['A', '-', '0', '0', '0', '6', '0', '0', '0', '0', '\n']

/-- The record decoded from `wBalLine` under `wLayout2`. -/
def wBalRecord : Record :=
  [(kStatus, Value.vstr ['A']), (kBalance, Value.vdec ⟨-60000, 2⟩)]

/-- A layout with no status-code field at all. -/
def wLayout3 : Layout := [⟨kBalance, 0, 3, .unsignedInteger, 0⟩]

/-- A line decodable under `wLayout3`. -/
def wIntLine : List Char := ['1', '2', '3', '\n']

/-- The record decoded from `wIntLine` under `wLayout3`: no status field. -/
def wIntRecord : Record := [(kBalance, Value.vint 123)]

theorem rget_rset_self (r : Record) (k : String) (v : Value) :
    rget (rset r k v) k = some v := by
  induction r with
  | nil => simp [rset, rget]
  | cons kv rest ih =>
      obtain ⟨k0, v0⟩ := kv
      by_cases h : k0 = k
      · simp [rset, rget, h]
      · simp [rset, rget, h, ih]

theorem rget_rset_ne (r : Record) (k k' : String) (v : Value) (h : k' ≠ k) :
    rget (rset r k v) k' = rget r k' := by
  induction r with
  | nil => simp [rset, rget, Ne.symm h]
  | cons kv rest ih =>
      obtain ⟨k0, v0⟩ := kv
      by_cases h0 : k0 = k
      · subst h0
        simp [rset, rget, Ne.symm h]
      · simp [rset, rget, h0, ih]

theorem rget_upperName_ne (r : Record) (k : String) (h : k ≠ kName) :
    rget (upperName r) k = rget r k := by
  unfold upperName
  cases hv : rget r kName with
  | none => rfl
  | some v => exact rget_rset_ne r kName k _ h

theorem balanceCheck_ok (r r' : Record) (h : balanceCheck r = .ok r') : r' = r := by
  unfold balanceCheck at h
  split at h
  · cases h
  · injection h with h2
    exact h2.symm

theorem applyRules_ok (r r' : Record) (h : applyRules r = .ok r') :
    statusOk (rget r kStatus) = true ∧
      r' = rset (upperName r) kActive
            (.vbool (isActiveVal (rget (upperName r) kStatus))) := by
  unfold applyRules at h
  split at h
  · next hs => exact ⟨hs, balanceCheck_ok _ _ h⟩
  · next hs => cases h

theorem applyRules_ok_status (r r' : Record) (h : applyRules r = .ok r') :
    statusOk (rget r' kStatus) = true := by
  obtain ⟨hs, hr⟩ := applyRules_ok r r' h
  subst hr
  rw [rget_rset_ne _ _ _ _ (by decide), rget_upperName_ne _ _ (by decide)]
  exact hs

theorem applyRules_ok_isActive (r r' : Record) (h : applyRules r = .ok r') :
    rget r' kActive = some (.vbool (isActiveVal (rget r' kStatus))) := by
  obtain ⟨hs, hr⟩ := applyRules_ok r r' h
  subst hr
  rw [rget_rset_self, rget_rset_ne _ _ _ _ (by decide)]

theorem isActiveVal_eq_true_iff (v : Option Value) :
    isActiveVal v = true ↔ v = some (.vstr ['A']) := by
  cases v with
  | none => simp [isActiveVal]
  | some val => cases val <;> simp [isActiveVal]

theorem processLines_nil (p : List Char → Nat → Except PErr Record) (n : Nat) :
    processLines p [] n = ([], []) := rfl

theorem processLines_cons_blank (p : List Char → Nat → Except PErr Record)
    (l : List Char) (rest : List (List Char)) (n : Nat) (h : isBlank l = true) :
    processLines p (l :: rest) n = processLines p rest (n + 1) := by
  simp [processLines, h]

theorem processLines_cons_ok (p : List Char → Nat → Except PErr Record)
    (l : List Char) (rest : List (List Char)) (n : Nat) (r : Record)
    (h : isBlank l = false) (hp : processLine p l (n + 1) = .ok r) :
    processLines p (l :: rest) n
      = (r :: (processLines p rest (n + 1)).1, (processLines p rest (n + 1)).2) := by
  simp [processLines, h, hp]

theorem processLines_cons_error (p : List Char → Nat → Except PErr Record)
    (l : List Char) (rest : List (List Char)) (n : Nat) (e : PErr)
    (h : isBlank l = false) (hp : processLine p l (n + 1) = .error e) :
    processLines p (l :: rest) n
      = ((processLines p rest (n + 1)).1,
          mkEntry (n + 1) e l :: (processLines p rest (n + 1)).2) := by
  simp [processLines, h, hp]

theorem mem_records_applyRules (p : List Char → Nat → Except PErr Record) :
    ∀ (ls : List (List Char)) (n : Nat) (r : Record),
      r ∈ (processLines p ls n).1 → ∃ r0, applyRules r0 = Except.ok r := by
  intro ls
  induction ls with
  | nil => intro n r hr; simp [processLines] at hr
  | cons l rest ih =>
      intro n r hr
      by_cases hb : isBlank l
      · rw [processLines_cons_blank p l rest n hb] at hr
        exact ih (n + 1) r hr
      · have hb' : isBlank l = false := by simpa using hb
        cases hp : processLine p l (n + 1) with
        | ok r1 =>
            rw [processLines_cons_ok p l rest n r1 hb' hp] at hr
            rcases List.mem_cons.mp hr with h | h
            · subst h
              unfold processLine at hp
              cases hq : p l (n + 1) with
              | error e => rw [hq] at hp; cases hp
              | ok r0 => rw [hq] at hp; exact ⟨r0, hp⟩
            · exact ih (n + 1) r h
        | error e =>
            rw [processLines_cons_error p l rest n e hb' hp] at hr
            exact ih (n + 1) r hr

theorem records_statusOk (p : List Char → Nat → Except PErr Record)
    (ls : List (List Char)) (n : Nat) (r : Record)
    (hr : r ∈ (processLines p ls n).1) :
    statusOk (rget r kStatus) = true := by
  obtain ⟨r0, h0⟩ := mem_records_applyRules p ls n r hr
  exact applyRules_ok_status r0 r h0

theorem records_isActive (p : List Char → Nat → Except PErr Record)
    (ls : List (List Char)) (n : Nat) (r : Record)
    (hr : r ∈ (processLines p ls n).1) :
    rget r kActive = some (.vbool (isActiveVal (rget r kStatus))) := by
  obtain ⟨r0, h0⟩ := mem_records_applyRules p ls n r hr
  exact applyRules_ok_isActive r0 r h0

theorem mkEntry_mem_errors (p : List Char → Nat → Except PErr Record) :
    ∀ (ls : List (List Char)) (i n : Nat) (hi : i < ls.length) (err : PErr),
      isBlank (ls.get ⟨i, hi⟩) = false →
      processLine p (ls.get ⟨i, hi⟩) (n + i + 1) = .error err →
      mkEntry (n + i + 1) err (ls.get ⟨i, hi⟩) ∈ (processLines p ls n).2 := by
  intro ls
  induction ls with
  | nil => intro i n hi; simp at hi
  | cons l rest ih =>
      intro i n hi err hb he
      cases i with
      | zero =>
          rw [processLines_cons_error p l rest n err hb he]
          exact List.mem_cons_self _ _
      | succ j =>
          have hj : j < rest.length := Nat.succ_lt_succ_iff.mp hi
          have e1 : n + (j + 1) + 1 = (n + 1) + j + 1 := by omega
          have hb2 : isBlank (rest.get ⟨j, hj⟩) = false := hb
          have he2 : processLine p (rest.get ⟨j, hj⟩) ((n + 1) + j + 1) = .error err := by
            rw [← e1]; exact he
          have hmem := ih j (n + 1) hj err hb2 he2
          by_cases hbl : isBlank l
          · rw [processLines_cons_blank p l rest n hbl, e1]
            exact hmem
          · have hbl' : isBlank l = false := by simpa using hbl
            cases hp : processLine p l (n + 1) with
            | ok r1 =>
                rw [processLines_cons_ok p l rest n r1 hbl' hp, e1]
                exact hmem
            | error e0 =>
                rw [processLines_cons_error p l rest n e0 hbl' hp, e1]
                exact List.mem_cons_of_mem _ hmem

theorem errors_shift_index (p : List Char → Nat → Except PErr Record)
    (ls : List (List Char)) (l : List Char) (n : Nat) (e : Entry)
    (h : ∃ i, ∃ hi : i < ls.length, isBlank (ls.get ⟨i, hi⟩) = false ∧
          ∃ err, processLine p (ls.get ⟨i, hi⟩) ((n + 1) + i + 1) = .error err ∧
            e = mkEntry ((n + 1) + i + 1) err (ls.get ⟨i, hi⟩)) :
    ∃ i, ∃ hi : i < (l :: ls).length, isBlank ((l :: ls).get ⟨i, hi⟩) = false ∧
      ∃ err, processLine p ((l :: ls).get ⟨i, hi⟩) (n + i + 1) = .error err ∧
        e = mkEntry (n + i + 1) err ((l :: ls).get ⟨i, hi⟩) := by
  obtain ⟨i, hi, hb, err, hpe, hee⟩ := h
  have e1 : n + (i + 1) + 1 = (n + 1) + i + 1 := by omega
  refine ⟨i + 1, Nat.succ_lt_succ hi, hb, err, ?_, ?_⟩
  · rw [e1]; exact hpe
  · rw [e1]; exact hee

theorem mem_errors_processLines (p : List Char → Nat → Except PErr Record) :
    ∀ (ls : List (List Char)) (n : Nat) (e : Entry),
      e ∈ (processLines p ls n).2 →
      ∃ i, ∃ hi : i < ls.length,
        isBlank (ls.get ⟨i, hi⟩) = false ∧
        ∃ err, processLine p (ls.get ⟨i, hi⟩) (n + i + 1) = .error err ∧
          e = mkEntry (n + i + 1) err (ls.get ⟨i, hi⟩) := by
  intro ls
  induction ls with
  | nil => intro n e he; simp [processLines] at he
  | cons l rest ih =>
      intro n e he
      by_cases hbl : isBlank l
      · rw [processLines_cons_blank p l rest n hbl] at he
        exact errors_shift_index p rest l n e (ih (n + 1) e he)
      · have hbl' : isBlank l = false := by simpa using hbl
        cases hp : processLine p l (n + 1) with
        | ok r1 =>
            rw [processLines_cons_ok p l rest n r1 hbl' hp] at he
            exact errors_shift_index p rest l n e (ih (n + 1) e he)
        | error e0 =>
            rw [processLines_cons_error p l rest n e0 hbl' hp] at he
            rcases List.mem_cons.mp he with h | h
            · exact ⟨0, Nat.succ_pos _, hbl', e0, hp, h⟩
            · exact errors_shift_index p rest l n e (ih (n + 1) e h)

theorem processLines_length (p : List Char → Nat → Except PErr Record) :
    ∀ (ls : List (List Char)) (n : Nat),
      (processLines p ls n).1.length + (processLines p ls n).2.length
        = (ls.filter (fun l => !isBlank l)).length := by
  intro ls
  induction ls with
  | nil => intro n; simp [processLines]
  | cons l rest ih =>
      intro n
      by_cases hbl : isBlank l
      · rw [processLines_cons_blank p l rest n hbl]
        simp [List.filter_cons, hbl, ih (n + 1)]
      · have hbl' : isBlank l = false := by simpa using hbl
        cases hp : processLine p l (n + 1) with
        | ok r1 =>
            rw [processLines_cons_ok p l rest n r1 hbl' hp]
            have h := ih (n + 1)
            simp [List.filter_cons, hbl']
            omega
        | error e0 =>
            rw [processLines_cons_error p l rest n e0 hbl' hp]
            have h := ih (n + 1)
            simp [List.filter_cons, hbl']
            omega

theorem length_filter_not_isBlank (ls : List (List Char)) :
    (ls.filter (fun l => !isBlank l)).length
      = ls.length - ls.countP (fun l => isBlank l) := by
  induction ls with
  | nil => simp
  | cons l rest ih =>
      have hc : rest.countP (fun l => isBlank l) ≤ rest.length :=
        List.countP_le_length _
      by_cases hbl : isBlank l
      · simp [List.filter_cons, List.countP_cons, hbl, ih]
      · have hbl' : isBlank l = false := by simpa using hbl
        simp [List.filter_cons, List.countP_cons, hbl', ih]
        omega

theorem filter_entryShape_map (es : List Entry) :
    (es.map ErrOut.entry).filter isEntryShape = es.map ErrOut.entry := by
  induction es with
  | nil => rfl
  | cons e rest ih => simp [List.filter_cons, isEntryShape, ih]

theorem filter_not_entryShape_map (es : List Entry) :
    (es.map ErrOut.entry).filter (fun e => !isEntryShape e) = [] := by
  induction es with
  | nil => rfl
  | cons e rest ih => simp [List.filter_cons, isEntryShape, ih]

/-- Claim C1: for every input data source of N lines processed by the
batch processor, the number of successfully processed records plus the
number of per-line error entries equals N minus the number of blank
lines: every non-blank line yields exactly one outcome. -/
theorem claim_C1 (parse : Layout → List Char → Nat → Except PErr Record)
    (lay : Layout) (lines : List (List Char)) (op wok : Bool) :
    ((advanced_cobol_processor parse (some lay) (.ok lines) op wok).1.getD []).length
      + ((advanced_cobol_processor parse (some lay) (.ok lines) op wok).2.filter
          isEntryShape).length
    = lines.length - lines.countP (fun l => isBlank l) := by
  have h1 := processLines_length (parse lay) lines 0
  have h2 := length_filter_not_isBlank lines
  by_cases hop : (op && !wok) = true
  · simp only [advanced_cobol_processor, hop, if_true]
    simp [List.filter_append, filter_entryShape_map, isEntryShape]
    omega
  · have hop' : (op && !wok) = false := by simpa using hop
    simp only [advanced_cobol_processor, hop', if_false]
    simp [filter_entryShape_map]
    omega

/-- Claim C2: a non-blank line whose decoded record has a status code
outside the allowed set contributes no record to the successful output
(`statusOk` fails on it while every output record satisfies `statusOk`),
and the error output contains an entry bearing that line's 1-based
number. -/
theorem claim_C2 (p : List Char → Nat → Except PErr Record)
    (ls : List (List Char)) (i : Nat) (hi : i < ls.length) (r : Record)
    (hb : isBlank (ls.get ⟨i, hi⟩) = false)
    (hp : p (ls.get ⟨i, hi⟩) (i + 1) = .ok r)
    (hs : statusOk (rget r kStatus) = false) :
    r ∉ (processLines p ls 0).1 ∧
      ∃ e ∈ (processLines p ls 0).2, e.lineNumber = i + 1 := by
  constructor
  · intro hmem
    have ht := records_statusOk p ls 0 r hmem
    rw [hs] at ht
    simp at ht
  · have hz : 0 + i + 1 = i + 1 := by omega
    have har : applyRules r = .error (.valueError (invalidStatusMsg (rget r kStatus))) := by
      unfold applyRules
      rw [hs]
      simp
    have hpe : processLine p (ls.get ⟨i, hi⟩) (0 + i + 1)
        = .error (.valueError (invalidStatusMsg (rget r kStatus))) := by
      unfold processLine
      rw [hz, hp]
      exact har
    refine ⟨mkEntry (0 + i + 1) (.valueError (invalidStatusMsg (rget r kStatus)))
        (ls.get ⟨i, hi⟩), mkEntry_mem_errors p ls i 0 hi _ hb hpe, ?_⟩
    simp [mkEntry]

theorem claim_C2_witness :
    (0 : Nat) < ([wBadLine] : List (List Char)).length ∧
      isBlank wBadLine = false ∧
      parse_cobol_line wLayout wBadLine 1 = .ok wBadRecord ∧
      statusOk (rget wBadRecord kStatus) = false ∧
      (wBadRecord ∉ (processLines (parse_cobol_line wLayout) [wBadLine] 0).1 ∧
        ∃ e ∈ (processLines (parse_cobol_line wLayout) [wBadLine] 0).2,
          e.lineNumber = 0 + 1) :=
  ⟨by decide, by decide, by decide, by decide,
    claim_C2 (parse_cobol_line wLayout) [wBadLine] 0 (by decide) wBadRecord
      (by decide) (by decide) (by decide)⟩

/-- Claim C3, amended: for every failing line, the error entry's raw_line
field is the original line text with all trailing whitespace stripped
(Python rstrip), not only the trailing newline. -/
theorem claim_C3 (p : List Char → Nat → Except PErr Record)
    (ls : List (List Char)) (e : Entry) (he : e ∈ (processLines p ls 0).2) :
    ∃ i, ∃ hi : i < ls.length,
      isBlank (ls.get ⟨i, hi⟩) = false ∧ e.lineNumber = i + 1 ∧
        e.rawLine = pyRstrip (ls.get ⟨i, hi⟩) := by
  obtain ⟨i, hi, hb, err, hpe, hee⟩ := mem_errors_processLines p ls 0 e he
  subst hee
  refine ⟨i, hi, hb, ?_, rfl⟩
  simp [mkEntry]

theorem claim_C3_witness :
    wBadEntry ∈ (processLines (parse_cobol_line wLayout) [wBadLine] 0).2 ∧
      ∃ i, ∃ hi : i < ([wBadLine] : List (List Char)).length,
        isBlank (([wBadLine] : List (List Char)).get ⟨i, hi⟩) = false ∧
          wBadEntry.lineNumber = i + 1 ∧
          wBadEntry.rawLine = pyRstrip (([wBadLine] : List (List Char)).get ⟨i, hi⟩) :=
  ⟨by decide, claim_C3 (parse_cobol_line wLayout) [wBadLine] wBadEntry (by decide)⟩

/-- Claim C3 as stated is false: on a failing line with trailing spaces
before its newline, the recorded raw_line is the line with all trailing
whitespace stripped, which differs from the line with only the trailing
newline stripped. -/
theorem claim_C3_counterexample :
    ((processLines (parse_cobol_line wLayout) [wBadLine] 0).2.map
        (fun e => e.rawLine)) = [['X']] ∧
      stripTrailingNewline wBadLine = ['X', ' ', ' '] ∧
      (['X'] : List Char) ≠ ['X', ' ', ' '] :=
  ⟨by decide, by decide, by decide⟩

/-- Claim C4, amended: every error-list element produced by the per-line
loop has the three-field entry shape; the only element of any other shape
a completed run can contain is the single bare string appended when
writing the output JSON file fails. -/
theorem claim_C4 (parse : Layout → List Char → Nat → Except PErr Record)
    (lay : Layout) (lines : List (List Char)) (op wok : Bool) :
    ((advanced_cobol_processor parse (some lay) (.ok lines) op wok).2.filter
        (fun e => !isEntryShape e))
      = if op && !wok then [ErrOut.plain jsonOutputErrorMsg] else [] := by
  by_cases hop : (op && !wok) = true
  · simp only [advanced_cobol_processor, hop, if_true]
    simp [List.filter_append, filter_not_entryShape_map, isEntryShape]
  · have hop' : (op && !wok) = false := by simpa using hop
    simp only [advanced_cobol_processor, hop', if_false]
    simp [filter_not_entryShape_map]

/-- Claim C4 as stated is false: a completed (non-fatal) run whose output
JSON write fails returns an error list containing a bare string element,
not an object with the three fields. -/
theorem claim_C4_counterexample :
    (advanced_cobol_processor parse_cobol_line (some wLayout) (.ok [wGoodLine])
        true false).1.isSome = true ∧
      (advanced_cobol_processor parse_cobol_line (some wLayout) (.ok [wGoodLine])
          true false).2.all isEntryShape = false :=
  ⟨by decide, by decide⟩

/-- Claim C6: empty or whitespace-only lines are counted toward the
1-based line numbering (the counter passed to the rest of the batch is
incremented) but contribute neither a record nor an error entry. -/
theorem claim_C6 (p : List Char → Nat → Except PErr Record) (l : List Char)
    (rest : List (List Char)) (n : Nat) (h : ∀ c ∈ l, pyIsSpace c = true) :
    processLines p (l :: rest) n = processLines p rest (n + 1) := by
  have hb : isBlank l = true := by
    simp only [isBlank, List.all_eq_true]
    exact h
  exact processLines_cons_blank p l rest n hb

theorem claim_C6_witness :
    (∀ c ∈ wBlankLine, pyIsSpace c = true) ∧
      processLines (parse_cobol_line wLayout) (wBlankLine :: []) 0
        = processLines (parse_cobol_line wLayout) [] 1 :=
  ⟨by decide, claim_C6 (parse_cobol_line wLayout) wBlankLine [] 0 (by decide)⟩

/-- Claim C5: fatal errors (layout load failure, data-source failure)
stop the run and return no records, each reported as a single fatal
message; with a readable source the run always returns the accumulated
records, and a per-line failure only appends one error entry and lets
processing continue with the remaining lines. -/
theorem claim_C5 (parse : Layout → List Char → Nat → Except PErr Record)
    (lay : Layout) (ds : Except DataSourceErr (List (List Char)))
    (lines : List (List Char)) (op wok : Bool) (m : List Char)
    (l : List Char) (rest : List (List Char)) (n : Nat) (err : PErr)
    (hb : isBlank l = false)
    (he : processLine (parse lay) l (n + 1) = .error err) :
    advanced_cobol_processor parse none ds op wok
        = (none, [ErrOut.plain layoutLoadErrorMsg]) ∧
      advanced_cobol_processor parse (some lay) (.error .fileNotFound) op wok
        = (none, [ErrOut.plain dataFileNotFoundMsg]) ∧
      advanced_cobol_processor parse (some lay) (.error (.other m)) op wok
        = (none, [ErrOut.plain fileProcessingErrorMsg]) ∧
      (advanced_cobol_processor parse (some lay) (.ok lines) op wok).1
        = some (processLines (parse lay) lines 0).1 ∧
      processLines (parse lay) (l :: rest) n
        = ((processLines (parse lay) rest (n + 1)).1,
            mkEntry (n + 1) err l :: (processLines (parse lay) rest (n + 1)).2) :=
  ⟨rfl, rfl, rfl, rfl, processLines_cons_error _ _ _ _ _ hb he⟩

theorem claim_C5_witness :
    isBlank wBadLine = false ∧
      processLine (parse_cobol_line wLayout) wBadLine 1
        = .error (.valueError (invalidStatusMsg (some (.vstr ['X'])))) ∧
      (advanced_cobol_processor parse_cobol_line none (.ok []) true true
          = (none, [ErrOut.plain layoutLoadErrorMsg]) ∧
        advanced_cobol_processor parse_cobol_line (some wLayout)
            (.error .fileNotFound) true true
          = (none, [ErrOut.plain dataFileNotFoundMsg]) ∧
        advanced_cobol_processor parse_cobol_line (some wLayout)
            (.error (.other [])) true true
          = (none, [ErrOut.plain fileProcessingErrorMsg]) ∧
        (advanced_cobol_processor parse_cobol_line (some wLayout)
            (.ok [wGoodLine]) true true).1
          = some (processLines (parse_cobol_line wLayout) [wGoodLine] 0).1 ∧
        processLines (parse_cobol_line wLayout) (wBadLine :: []) 0
          = ((processLines (parse_cobol_line wLayout) [] 1).1,
              mkEntry 1 (.valueError (invalidStatusMsg (some (.vstr ['X'])))) wBadLine
                :: (processLines (parse_cobol_line wLayout) [] 1).2)) :=
  ⟨by decide, by decide,
    claim_C5 parse_cobol_line wLayout (.ok []) [wGoodLine] true true []
      wBadLine [] 0 (.valueError (invalidStatusMsg (some (.vstr ['X']))))
      (by decide) (by decide)⟩

/-- Claim C8: every record appended to the successful output carries a
boolean is_active field whose value is true exactly when the record's
status-code field equals the configured active code. -/
theorem claim_C8 (p : List Char → Nat → Except PErr Record)
    (ls : List (List Char)) (n : Nat) (r : Record)
    (hr : r ∈ (processLines p ls n).1) :
    ∃ b : Bool, rget r kActive = some (.vbool b) ∧
      (b = true ↔ rget r kStatus = some (.vstr ['A'])) :=
  ⟨isActiveVal (rget r kStatus), records_isActive p ls n r hr,
    isActiveVal_eq_true_iff _⟩

theorem claim_C8_witness :
    ([(kStatus, Value.vstr ['A']), (kActive, Value.vbool true)] : Record)
        ∈ (processLines (parse_cobol_line wLayout) [wGoodLine] 0).1 ∧
      ∃ b : Bool,
        rget [(kStatus, Value.vstr ['A']), (kActive, Value.vbool true)] kActive
            = some (.vbool b) ∧
          (b = true ↔
            rget [(kStatus, Value.vstr ['A']), (kActive, Value.vbool true)] kStatus
              = some (.vstr ['A'])) :=
  ⟨by decide, claim_C8 (parse_cobol_line wLayout) [wGoodLine] 0 _ (by decide)⟩

/-- Claim C9: a record whose decimal balance is below the warning
threshold but which passes validation is still appended to the
successful output, and its line produces no error entry. -/
theorem claim_C9 (p : List Char → Nat → Except PErr Record) (l : List Char)
    (rest : List (List Char)) (n : Nat) (r0 : Record) (d : Dec)
    (hb : isBlank l = false)
    (hp : p l (n + 1) = .ok r0)
    (hs : statusOk (rget r0 kStatus) = true)
    (hbal : rget r0 kBalance = some (.vdec d))
    (_hlt : decLt d warnThreshold = true) :
    ∃ r', applyRules r0 = .ok r' ∧
      processLines p (l :: rest) n
        = (r' :: (processLines p rest (n + 1)).1,
            (processLines p rest (n + 1)).2) := by
  have hbal2 : rget (rset (upperName r0) kActive
      (.vbool (isActiveVal (rget (upperName r0) kStatus)))) kBalance
      = some (.vdec d) := by
    rw [rget_rset_ne _ _ _ _ (by decide), rget_upperName_ne _ _ (by decide)]
    exact hbal
  have hok : applyRules r0 = .ok (rset (upperName r0) kActive
      (.vbool (isActiveVal (rget (upperName r0) kStatus)))) := by
    unfold applyRules
    rw [hs]
    simp only [if_true]
    unfold balanceCheck
    rw [hbal2]
  have hpl : processLine p l (n + 1) = .ok (rset (upperName r0) kActive
      (.vbool (isActiveVal (rget (upperName r0) kStatus)))) := by
    unfold processLine
    rw [hp]
    exact hok
  exact ⟨_, hok, processLines_cons_ok p l rest n _ hb hpl⟩

theorem claim_C9_witness :
    isBlank wBalLine = false ∧
      parse_cobol_line wLayout2 wBalLine 1 = .ok wBalRecord ∧
      statusOk (rget wBalRecord kStatus) = true ∧
      rget wBalRecord kBalance = some (.vdec ⟨-60000, 2⟩) ∧
      decLt ⟨-60000, 2⟩ warnThreshold = true ∧
      ∃ r', applyRules wBalRecord = .ok r' ∧
        processLines (parse_cobol_line wLayout2) (wBalLine :: []) 0
          = (r' :: (processLines (parse_cobol_line wLayout2) [] 1).1,
              (processLines (parse_cobol_line wLayout2) [] 1).2) :=
  ⟨by decide, by decide, by decide, by decide, by decide,
    claim_C9 (parse_cobol_line wLayout2) wBalLine [] 0 wBalRecord ⟨-60000, 2⟩
      (by decide) (by decide) (by decide) (by decide) (by decide)⟩

/-- Claim C10: a non-blank line whose decoded record has no status-code
field at all is rejected: its record never reaches the successful
output, and the line contributes exactly one error entry (the missing
status is treated like an invalid one). -/
theorem claim_C10 (p : List Char → Nat → Except PErr Record) (l : List Char)
    (rest : List (List Char)) (n : Nat) (r0 : Record)
    (hb : isBlank l = false)
    (hp : p l (n + 1) = .ok r0)
    (hs : rget r0 kStatus = none) :
    r0 ∉ (processLines p (l :: rest) n).1 ∧
      processLines p (l :: rest) n
        = ((processLines p rest (n + 1)).1,
            mkEntry (n + 1) (.valueError (invalidStatusMsg none)) l
              :: (processLines p rest (n + 1)).2) := by
  have hsf : statusOk (rget r0 kStatus) = false := by rw [hs]; rfl
  have har : applyRules r0 = .error (.valueError (invalidStatusMsg none)) := by
    unfold applyRules
    rw [hs]
    rfl
  have herr : processLine p l (n + 1)
      = .error (.valueError (invalidStatusMsg none)) := by
    unfold processLine
    rw [hp]
    exact har
  constructor
  · intro hmem
    have ht := records_statusOk p (l :: rest) n r0 hmem
    rw [hsf] at ht
    simp at ht
  · exact processLines_cons_error p l rest n _ hb herr

theorem claim_C10_witness :
    isBlank wIntLine = false ∧
      parse_cobol_line wLayout3 wIntLine 1 = .ok wIntRecord ∧
      rget wIntRecord kStatus = none ∧
      (wIntRecord ∉ (processLines (parse_cobol_line wLayout3) (wIntLine :: []) 0).1 ∧
        processLines (parse_cobol_line wLayout3) (wIntLine :: []) 0
          = ((processLines (parse_cobol_line wLayout3) [] 1).1,
              mkEntry 1 (.valueError (invalidStatusMsg none)) wIntLine
                :: (processLines (parse_cobol_line wLayout3) [] 1).2)) :=
  ⟨by decide, by decide, by decide,
    claim_C10 (parse_cobol_line wLayout3) wIntLine [] 0 wIntRecord
      (by decide) (by decide) (by decide)⟩

theorem digitVal_digitCh {d : Nat} (h : d < 10) : digitVal (digitCh d) = d := by
  interval_cases d <;> decide

theorem isDigitCh_digitCh {d : Nat} (h : d < 10) : isDigitCh (digitCh d) = true := by
  interval_cases d <;> decide

theorem digitCh_ne_dot {d : Nat} (h : d < 10) : digitCh d ≠ '.' := by
  interval_cases d <;> decide

theorem natToCharsAux_eq (fuel : Nat) : ∀ n : Nat, n ≤ fuel →
    natToCharsAux fuel n = (Nat.digits 10 n).reverse.map digitCh := by
  induction fuel with
  | zero =>
      intro n hn
      have h0 : n = 0 := Nat.le_zero.mp hn
      subst h0
      simp [natToCharsAux]
  | succ f ih =>
      intro n hn
      by_cases h0 : n = 0
      · subst h0; simp [natToCharsAux]
      · have hdiv : n / 10 ≤ f := by
          have h1 : n / 10 < n := Nat.div_lt_self (Nat.pos_of_ne_zero h0) (by norm_num)
          omega
        have hd := Nat.digits_def' (b := 10) (by norm_num) (Nat.pos_of_ne_zero h0)
        simp [natToCharsAux, h0, ih (n / 10) hdiv, hd]

theorem mem_natToChars (n : Nat) (c : Char) (hc : c ∈ natToChars n) :
    ∃ d, d < 10 ∧ c = digitCh d := by
  unfold natToChars at hc
  by_cases h0 : n = 0
  · subst h0
    simp at hc
    exact ⟨0, by norm_num, hc⟩
  · rw [if_neg h0, natToCharsAux_eq n n le_rfl] at hc
    rw [List.mem_map] at hc
    obtain ⟨d, hd, hcd⟩ := hc
    rw [List.mem_reverse] at hd
    exact ⟨d, Nat.digits_lt_base (by norm_num) hd, hcd.symm⟩

theorem natToChars_all_digits (n : Nat) : (natToChars n).all isDigitCh = true := by
  rw [List.all_eq_true]
  intro c hc
  obtain ⟨d, hd, rfl⟩ := mem_natToChars n c hc
  exact isDigitCh_digitCh hd

theorem natToChars_ne_nil (n : Nat) : natToChars n ≠ [] := by
  unfold natToChars
  by_cases h0 : n = 0
  · simp [h0]
  · rw [if_neg h0, natToCharsAux_eq n n le_rfl]
    simp [h0, Nat.digits_ne_nil_iff_ne_zero]

theorem dot_not_mem_of_all_digits (cs : List Char) (h : cs.all isDigitCh = true) :
    '.' ∉ cs := by
  rw [List.all_eq_true] at h
  intro hc
  exact absurd (h _ hc) (by decide)

theorem head_not_dash_append (xs ys : List Char) (hne : xs ≠ [])
    (h : xs.all isDigitCh = true) : (xs ++ ys).head? ≠ some '-' := by
  cases xs with
  | nil => exact absurd rfl hne
  | cons c t =>
      rw [List.all_eq_true] at h
      have hc := h c (List.mem_cons_self _ _)
      intro hh
      simp at hh
      subst hh
      exact absurd hc (by decide)

theorem charsToNat_step (cs : List Char) : ∀ a : Nat,
    cs.foldl (fun x c => 10 * x + digitVal c) a
      = a * 10 ^ cs.length + charsToNat cs := by
  induction cs with
  | nil => intro a; simp [charsToNat]
  | cons c t ih =>
      intro a
      have h1 := ih (10 * a + digitVal c)
      have h2 := ih (10 * 0 + digitVal c)
      simp only [List.foldl_cons, charsToNat, List.length_cons] at *
      rw [h1, h2]
      ring

theorem charsToNat_append (xs ys : List Char) :
    charsToNat (xs ++ ys) = charsToNat xs * 10 ^ ys.length + charsToNat ys := by
  unfold charsToNat
  rw [List.foldl_append]
  exact charsToNat_step ys _

theorem charsToNat_digits (L : List Nat) (hL : ∀ d ∈ L, d < 10) :
    charsToNat (L.reverse.map digitCh) = Nat.ofDigits 10 L := by
  induction L with
  | nil => simp [charsToNat]
  | cons d t ih =>
      have hd : d < 10 := hL d (List.mem_cons_self _ _)
      have ht : ∀ x ∈ t, x < 10 := fun x hx => hL x (List.mem_cons_of_mem _ hx)
      rw [List.reverse_cons, List.map_append, charsToNat_append, ih ht]
      simp [charsToNat, digitVal_digitCh hd, Nat.ofDigits_cons]
      ring

theorem charsToNat_natToChars (n : Nat) : charsToNat (natToChars n) = n := by
  unfold natToChars
  by_cases h0 : n = 0
  · subst h0; decide
  · rw [if_neg h0, natToCharsAux_eq n n le_rfl,
      charsToNat_digits _ (fun d hd => Nat.digits_lt_base (by norm_num) hd),
      Nat.ofDigits_digits]

theorem charsToNat_replicate_zero (k : Nat) (cs : List Char) :
    charsToNat (List.replicate k '0' ++ cs) = charsToNat cs := by
  rw [charsToNat_append]
  have h : charsToNat (List.replicate k '0') = 0 := by
    induction k with
    | zero => rfl
    | succ j ih =>
        calc charsToNat (List.replicate (j + 1) '0')
            = charsToNat (List.replicate j '0') := rfl
          _ = 0 := ih
  rw [h]
  ring

theorem splitAtDot_no_dot (cs : List Char) (h : '.' ∉ cs) :
    splitAtDot cs = (cs, none) := by
  induction cs with
  | nil => rfl
  | cons c t ih =>
      have hc : ¬(c = '.') := fun hh => h (hh ▸ List.mem_cons_self _ _)
      have ht : '.' ∉ t := fun hh => h (List.mem_cons_of_mem _ hh)
      simp [splitAtDot, hc, ih ht]

theorem splitAtDot_append (xs ys : List Char) (h : '.' ∉ xs) :
    splitAtDot (xs ++ '.' :: ys) = (xs, some ys) := by
  induction xs with
  | nil => simp [splitAtDot]
  | cons c t ih =>
      have hc : ¬(c = '.') := fun hh => h (hh ▸ List.mem_cons_self _ _)
      have ht : '.' ∉ t := fun hh => h (List.mem_cons_of_mem _ hh)
      simp [splitAtDot, hc, ih ht]

theorem parseDigits_natToChars (n : Nat) :
    parseDigits (natToChars n) = some n := by
  unfold parseDigits
  rw [if_pos ⟨natToChars_ne_nil n, natToChars_all_digits n⟩, charsToNat_natToChars]

theorem all_isDigitCh_take (cs : List Char) (k : Nat) (h : cs.all isDigitCh = true) :
    (cs.take k).all isDigitCh = true := by
  rw [List.all_eq_true] at *
  exact fun c hc => h c (List.take_subset k cs hc)

theorem all_isDigitCh_drop (cs : List Char) (k : Nat) (h : cs.all isDigitCh = true) :
    (cs.drop k).all isDigitCh = true := by
  rw [List.all_eq_true] at *
  exact fun c hc => h c (List.drop_subset k cs hc)

theorem parseUnsigned_eq_of_split_none (s ip : List Char)
    (h : splitAtDot s = (ip, none)) :
    parseUnsigned s = (parseDigits ip).map (fun a => (a : ℚ)) := by
  unfold parseUnsigned
  rw [h]

theorem parseUnsigned_eq_of_split_some (s ip fp : List Char)
    (h : splitAtDot s = (ip, some fp)) :
    parseUnsigned s =
      match parseDigits ip, parseDigits fp with
      | some a, some b => some ((a : ℚ) + (b : ℚ) / (10 : ℚ) ^ fp.length)
      | _, _ => none := by
  unfold parseUnsigned
  rw [h]

theorem head_not_dash_of_all_digits (cs : List Char) (hne : cs ≠ [])
    (h : cs.all isDigitCh = true) : cs.head? ≠ some '-' := by
  have := head_not_dash_append cs [] hne h
  simpa using this

theorem parseUnsigned_decBodyChars (a scale : Nat) :
    parseUnsigned (decBodyChars a scale) = some ((a : ℚ) / (10 : ℚ) ^ scale) := by
  simp only [decBodyChars]
  by_cases h0 : scale = 0
  · subst h0
    rw [if_pos rfl,
      parseUnsigned_eq_of_split_none _ _
        (splitAtDot_no_dot _ (dot_not_mem_of_all_digits _ (natToChars_all_digits a))),
      parseDigits_natToChars]
    simp
  · rw [if_neg h0]
    have hall := natToChars_all_digits a
    have hlen : 0 < (natToChars a).length := List.length_pos.mpr (natToChars_ne_nil a)
    by_cases hlt : scale < (natToChars a).length
    · rw [if_pos hlt]
      have htlen : ((natToChars a).take ((natToChars a).length - scale)).length
          = (natToChars a).length - scale := by
        rw [List.length_take]
        omega
      have hdlen : ((natToChars a).drop ((natToChars a).length - scale)).length
          = scale := by
        rw [List.length_drop]
        omega
      have htne : (natToChars a).take ((natToChars a).length - scale) ≠ [] := by
        apply List.ne_nil_of_length_pos
        omega
      have hdne : (natToChars a).drop ((natToChars a).length - scale) ≠ [] := by
        apply List.ne_nil_of_length_pos
        omega
      have htall := all_isDigitCh_take (natToChars a) ((natToChars a).length - scale) hall
      have hdall := all_isDigitCh_drop (natToChars a) ((natToChars a).length - scale) hall
      rw [parseUnsigned_eq_of_split_some _ _ _
        (splitAtDot_append _ _ (dot_not_mem_of_all_digits _ htall))]
      unfold parseDigits
      rw [if_pos ⟨htne, htall⟩, if_pos ⟨hdne, hdall⟩]
      have hsum : charsToNat ((natToChars a).take ((natToChars a).length - scale))
            * 10 ^ scale
          + charsToNat ((natToChars a).drop ((natToChars a).length - scale)) = a := by
        have hca := charsToNat_append
          ((natToChars a).take ((natToChars a).length - scale))
          ((natToChars a).drop ((natToChars a).length - scale))
        rw [List.take_append_drop, charsToNat_natToChars, hdlen] at hca
        omega
      rw [hdlen]
      dsimp only
      have h10 : (10 : ℚ) ^ scale ≠ 0 := by positivity
      congr 1
      have hq : (charsToNat ((natToChars a).take ((natToChars a).length - scale)) : ℚ)
            * 10 ^ scale
          + (charsToNat ((natToChars a).drop ((natToChars a).length - scale)) : ℚ)
          = (a : ℚ) := by
        exact_mod_cast hsum
      field_simp
      linarith [hq]
    · rw [if_neg hlt]
      have hrlen : (List.replicate (scale - (natToChars a).length) '0'
          ++ natToChars a).length = scale := by
        rw [List.length_append, List.length_replicate]
        omega
      have hrne : List.replicate (scale - (natToChars a).length) '0'
          ++ natToChars a ≠ [] := by
        apply List.ne_nil_of_length_pos
        rw [hrlen]
        omega
      have hrall : (List.replicate (scale - (natToChars a).length) '0'
          ++ natToChars a).all isDigitCh = true := by
        rw [List.all_append, hall, Bool.and_true]
        rw [List.all_eq_true]
        intro c hc
        rw [List.mem_replicate] at hc
        rw [hc.2]
        decide
      have hsplit : splitAtDot ('0' :: '.'
          :: (List.replicate (scale - (natToChars a).length) '0' ++ natToChars a))
          = (['0'], some (List.replicate (scale - (natToChars a).length) '0'
              ++ natToChars a)) := rfl
      rw [parseUnsigned_eq_of_split_some _ _ _ hsplit]
      have hip : parseDigits ['0'] = some 0 := by decide
      have hfp : parseDigits (List.replicate (scale - (natToChars a).length) '0'
          ++ natToChars a) = some a := by
        unfold parseDigits
        rw [if_pos ⟨hrne, hrall⟩, charsToNat_replicate_zero, charsToNat_natToChars]
      rw [hip, hfp, hrlen]
      norm_num

theorem decBodyChars_head_ne_dash (a scale : Nat) :
    (decBodyChars a scale).head? ≠ some '-' := by
  simp only [decBodyChars]
  by_cases h0 : scale = 0
  · rw [if_pos h0]
    exact head_not_dash_of_all_digits _ (natToChars_ne_nil a) (natToChars_all_digits a)
  · rw [if_neg h0]
    have hall := natToChars_all_digits a
    have hlen : 0 < (natToChars a).length := List.length_pos.mpr (natToChars_ne_nil a)
    by_cases hlt : scale < (natToChars a).length
    · rw [if_pos hlt]
      have htlen : ((natToChars a).take ((natToChars a).length - scale)).length
          = (natToChars a).length - scale := by
        rw [List.length_take]
        omega
      have htne : (natToChars a).take ((natToChars a).length - scale) ≠ [] := by
        apply List.ne_nil_of_length_pos
        omega
      exact head_not_dash_append _ _ htne
        (all_isDigitCh_take (natToChars a) ((natToChars a).length - scale) hall)
    · rw [if_neg hlt]
      intro hh
      injection hh with hh2
      exact absurd hh2 (by decide)

/-- Claim C7: serializing a record renders every exact-precision decimal
value as a JSON string holding its exact decimal text (the literal digit
string), and that text denotes exactly the decimal's rational value, so
no binary floating-point conversion is involved. -/
theorem claim_C7 :
    (∀ d : Dec, encodeValue (.vdec d) = .jstr (decToString d)) ∧
      ∀ d : Dec, parseDecText (decToString d) = some (decDenote d) := by
  refine ⟨fun d => rfl, fun d => ?_⟩
  unfold decToString decDenote
  by_cases hneg : d.num < 0
  · rw [if_pos hneg]
    have hhead : ((['-'] : List Char) ++ decBodyChars d.num.natAbs d.scale).head?
        = some '-' := rfl
    unfold parseDecText
    rw [if_pos hhead]
    have htail : ((['-'] : List Char) ++ decBodyChars d.num.natAbs d.scale).tail
        = decBodyChars d.num.natAbs d.scale := rfl
    rw [htail, parseUnsigned_decBodyChars]
    have h1 : (d.num.natAbs : ℚ) = -(d.num : ℚ) := by
      rw [Int.cast_natAbs, abs_of_nonpos (le_of_lt hneg)]
      push_cast
      ring
    simp only [Option.map_some']
    congr 1
    rw [h1, neg_div, neg_neg]
  · rw [if_neg hneg]
    have hbody : (([] : List Char) ++ decBodyChars d.num.natAbs d.scale)
        = decBodyChars d.num.natAbs d.scale := by simp
    rw [hbody]
    unfold parseDecText
    rw [if_neg (decBodyChars_head_ne_dash _ _), parseUnsigned_decBodyChars]
    congr 1
    have h1 : (d.num.natAbs : ℚ) = (d.num : ℚ) := by
      rw [Int.cast_natAbs, abs_of_nonneg (not_lt.mp hneg)]
    rw [h1]

end CustomLogic
